import Mathlib

/-!
Verification of the recipe normalization and storage engine of
modpack-workbench (src/src-tauri/src).

The development embeds:
* `recipe_parser.rs` — the JSON normalizer `parse_recipe` with its helpers
  `extract_item_and_count` and `extract_ingredients_from_value`;
* `database.rs` — the SQLite-backed store (`insert_mod`, `insert_recipe`,
  `clear_all`, `list_recipes`, `get_recipe_count`, `search_by_output`,
  `search_by_ingredient`);
* `lib.rs` — the recipe-entry filter of `extract_all_recipes`.

JSON parsing itself (serde_json) is treated as an external collaborator:
an input string is modelled as `Option Json`, `none` standing for text that
is not well-formed JSON. serde_json numbers are modelled as either an
integer (`num`) or a non-integer number (`numNonInt`); the code only ever
asks `as_i64`, so the value of a non-integer number is never observed.
-/

namespace ModpackWorkbench

/-- serde_json `Value`, with numbers split into the i64-representable
integers and everything else (floats, out-of-range), since the source only
uses `as_i64` on numbers. -/
inductive Json where
  | null : Json
  | bool (b : Bool) : Json
  | num (n : Int) : Json
  | numNonInt : Json
  | str (s : String) : Json
  | arr (elems : List Json) : Json
  | obj (fields : List (String × Json)) : Json

namespace Json

/-- `Value::get(key)`: field lookup, `None` on non-objects.  A parsed
serde_json object has at most one entry per key, so first-match lookup
models the map lookup. -/
def get (v : Json) (k : String) : Option Json :=
  match v with
  | .obj fields => (fields.find? (fun p => p.1 == k)).map (fun p => p.2)
  | _ => none

/-- `Value::as_str`. -/
def asStr : Json → Option String
  | .str s => some s
  | _ => none

/-- `Value::as_i64`. -/
def asInt : Json → Option Int
  | .num n => some n
  | _ => none

/-- `Value::as_array`. -/
def asArr : Json → Option (List Json)
  | .arr elems => some elems
  | _ => none

/-- `Value::as_object` (the list of entries). -/
def asObj : Json → Option (List (String × Json))
  | .obj fields => some fields
  | _ => none

end Json

/-- Byte-wise substring test on character lists (`str::contains` in Rust,
which is case-sensitive). -/
def containsL (hay needle : List Char) : Bool :=
  needle.isPrefixOf hay ||
    match hay with
    | [] => false
    | _ :: t => containsL t needle

/-- `hay.contains(needle)` on strings. -/
def strContains (hay needle : String) : Bool :=
  containsL hay.data needle.data

/-- `ParsedRecipe` from recipe_parser.rs. -/
structure ParsedRecipe where
  recipe_type : String
  result_item : Option String
  result_count : Option Int
  ingredients : List String
deriving Repr, DecidableEq

/-- The `c as i32` truncating cast applied to the i64 `count`. -/
def toI32 (n : Int) : Int :=
  (n + 2 ^ 31) % 2 ^ 32 - 2 ^ 31

/-- `extract_item_and_count` from recipe_parser.rs: result resolution from
a result value. -/
def extract_item_and_count (value : Json) : Option String × Option Int :=
  match value with
  | .str s => (some s, some 1)
  | .obj fields =>
      let item := ((Json.obj fields).get "item" |>.or ((Json.obj fields).get "id")).bind Json.asStr
      let count :=
        match ((Json.obj fields).get "count").bind Json.asInt with
        | some c => some (toI32 c)
        | none => some 1
      (item, count)
  | _ => (none, none)

/-- `extract_ingredients_from_value` from recipe_parser.rs, returning the
pushed items in order instead of mutating a vector. -/
def extract_ingredients_from_value : Json → List String
  | .str s => [s]
  | .obj fields =>
      match ((Json.obj fields).get "item").bind Json.asStr with
      | some item => [item]
      | none =>
          match ((Json.obj fields).get "tag").bind Json.asStr with
          | some tag => ["#" ++ tag]
          | none => []
  | .arr elems =>
      (elems.attach.map (fun x => extract_ingredients_from_value x.1)).flatten
  | _ => []
decreasing_by
  have := List.sizeOf_lt_of_mem x.2
  simp only [Json.arr.sizeOf_spec]
  omega

/-- The ingredient-extraction dispatch of `parse_recipe` (the big `match`
on the recipe type), returning the ingredient list before sort/dedup. -/
def ingredientDispatch (recipe_type : String) (value : Json) : List String :=
  if recipe_type = "minecraft:crafting_shaped" ∨ recipe_type = "crafting_shaped" then
    match (value.get "key").bind Json.asObj with
    | some key => (key.map (fun p => extract_ingredients_from_value p.2)).flatten
    | none => []
  else if recipe_type = "minecraft:crafting_shapeless" ∨ recipe_type = "crafting_shapeless" then
    match (value.get "ingredients").bind Json.asArr with
    | some ingArray => (ingArray.map extract_ingredients_from_value).flatten
    | none => []
  else if recipe_type = "minecraft:smelting" ∨ recipe_type = "minecraft:blasting" ∨
      recipe_type = "minecraft:smoking" ∨ recipe_type = "minecraft:campfire_cooking" ∨
      recipe_type = "smelting" ∨ recipe_type = "blasting" ∨
      recipe_type = "smoking" ∨ recipe_type = "campfire_cooking" then
    match value.get "ingredient" with
    | some ingredient => extract_ingredients_from_value ingredient
    | none => []
  else if recipe_type = "minecraft:stonecutting" ∨ recipe_type = "stonecutting" then
    match value.get "ingredient" with
    | some ingredient => extract_ingredients_from_value ingredient
    | none => []
  else if recipe_type = "minecraft:smithing_transform" ∨ recipe_type = "minecraft:smithing_trim" ∨
      recipe_type = "smithing_transform" ∨ recipe_type = "smithing_trim" then
    (match value.get "template" with
     | some template => extract_ingredients_from_value template
     | none => []) ++
    (match value.get "base" with
     | some base => extract_ingredients_from_value base
     | none => []) ++
    (match value.get "addition" with
     | some addition => extract_ingredients_from_value addition
     | none => [])
  else if recipe_type = "minecraft:smithing" ∨ recipe_type = "smithing" then
    (match value.get "base" with
     | some base => extract_ingredients_from_value base
     | none => []) ++
    (match value.get "addition" with
     | some addition => extract_ingredients_from_value addition
     | none => [])
  else if strContains recipe_type "special" then
    []
  else
    (match (value.get "ingredients").or (value.get "ingredient") with
     | some ingredientsVal =>
         match ingredientsVal.asArr with
         | some elems => (elems.map extract_ingredients_from_value).flatten
         | none => extract_ingredients_from_value ingredientsVal
     | none => []) ++
    (match (value.get "key").bind Json.asObj with
     | some key => (key.map (fun p => extract_ingredients_from_value p.2)).flatten
     | none => []) ++
    (match (value.get "input").or (value.get "inputs") with
     | some input =>
         match input.asArr with
         | some elems => (elems.map extract_ingredients_from_value).flatten
         | none => extract_ingredients_from_value input
     | none => [])

/-- Adjacent-duplicate removal (`Vec::dedup`). -/
def dedupAdj : List String → List String
  | [] => []
  | [a] => [a]
  | a :: b :: rest => if a = b then dedupAdj (b :: rest) else a :: dedupAdj (b :: rest)

/-- `ingredients.sort(); ingredients.dedup();` — a stable sort in the byte
order of the strings, then adjacent-duplicate removal. -/
def sortDedup (l : List String) : List String :=
  dedupAdj (l.insertionSort (· ≤ ·))

/-- The recipe type read at the top of `parse_recipe`. -/
def parseType (value : Json) : String :=
  match (value.get "type").bind Json.asStr with
  | some t => t
  | none => "unknown"

/-- The body of `parse_recipe` on an already-parsed value.  The source
fills mutable `result_item`/`result_count` from the `result` field before
the dispatch; the stonecutting arm additionally falls back to a bare-string
`result` when no item was extracted. -/
def parseRecipeVal (value : Json) : ParsedRecipe :=
  let recipe_type := parseType value
  let rc :=
    match value.get "result" with
    | some result => extract_item_and_count result
    | none => (none, none)
  let result_item :=
    if (recipe_type = "minecraft:stonecutting" ∨ recipe_type = "stonecutting") ∧ rc.1 = none then
      (value.get "result").bind Json.asStr
    else rc.1
  { recipe_type := recipe_type
    result_item := result_item
    result_count := rc.2
    ingredients := sortDedup (ingredientDispatch recipe_type value) }

/-- `parse_recipe` on an input string: a string that is not well-formed
JSON (`none`) is the one error path; otherwise the normalizer is total. -/
def parse_recipe : Option Json → Except String ParsedRecipe
  | none => .error "Invalid JSON"
  | some value => .ok (parseRecipeVal value)

/-! ## The store (database.rs)

SQLite semantics embedded: tables are lists of rows in rowid order; a
fresh rowid is one more than the largest rowid currently in the table;
`INSERT OR REPLACE` first allocates the fresh rowid, then deletes the rows
conflicting on a UNIQUE constraint and appends the new row.  The
connection never executes `PRAGMA foreign_keys = ON`, so the declared
`ON DELETE CASCADE` actions never run — deletes caused by REPLACE leave
child rows in place. -/

/-- A row of the `mods` table. -/
structure ModRow where
  id : Nat
  name : String
  path : String
  scanned_at : String
deriving Repr, DecidableEq

/-- A row of the `recipes` table. -/
structure RecipeRow where
  id : Nat
  mod_id : Nat
  path : String
  recipe_type : String
  result_item : Option String
  result_count : Option Int
  raw_json : String
deriving Repr, DecidableEq

/-- A row of the `recipe_ingredients` table. -/
structure IngRow where
  id : Nat
  recipe_id : Nat
  item : String
deriving Repr, DecidableEq

/-- The three tables owned by the `Database` connection. -/
structure DB where
  mods : List ModRow
  recipes : List RecipeRow
  ingredients : List IngRow
deriving Repr, DecidableEq

/-- The freshly created (or `clear_all`-ed) database. -/
def DB.empty : DB := ⟨[], [], []⟩

/-- The next rowid SQLite hands out: one more than the largest in use. -/
def nextId (ids : List Nat) : Nat :=
  ids.foldr max 0 + 1

/-- `clear_all`: deletes all ingredients, recipes and mods. -/
def clear_all (_db : DB) : DB := DB.empty

/-- `insert_mod`: `INSERT OR REPLACE INTO mods` keyed by the UNIQUE `path`,
returning `last_insert_rowid`.  `now` is the `chrono_lite_now()` timestamp,
passed in because it is read from the clock. -/
def insert_mod (db : DB) (name path now : String) : Nat × DB :=
  let id := nextId (db.mods.map (fun m => m.id))
  (id, { db with mods := db.mods.filter (fun m => !(m.path == path)) ++
                   [{ id := id, name := name, path := path, scanned_at := now }] })

/-- One `INSERT INTO recipe_ingredients` per item, each allocating the next
rowid of the table as it stands. -/
def insertIngRows (rows : List IngRow) (recipe_id : Nat) : List String → List IngRow
  | [] => rows
  | item :: rest =>
      insertIngRows (rows ++ [{ id := nextId (rows.map (fun g => g.id)),
                                recipe_id := recipe_id, item := item }]) recipe_id rest

/-- `insert_recipe`: `INSERT OR REPLACE INTO recipes` keyed by the UNIQUE
`(mod_id, path)`, then `DELETE FROM recipe_ingredients WHERE recipe_id = ?`
with the *newly returned* rowid, then one insert per ingredient. -/
def insert_recipe (db : DB) (mod_id : Nat) (path recipe_type : String)
    (result_item : Option String) (result_count : Option Int) (raw_json : String)
    (ingredients : List String) : Nat × DB :=
  let recipe_id := nextId (db.recipes.map (fun r => r.id))
  let recipes := db.recipes.filter (fun r => !(r.mod_id == mod_id && r.path == path)) ++
    [{ id := recipe_id, mod_id := mod_id, path := path, recipe_type := recipe_type,
       result_item := result_item, result_count := result_count, raw_json := raw_json }]
  let kept := db.ingredients.filter (fun g => !(g.recipe_id == recipe_id))
  (recipe_id, { db with recipes := recipes, ingredients := insertIngRows kept recipe_id ingredients })

/-- The `Recipe` view struct returned by the queries (a `recipes` row
joined with its mod name and its ingredient list). -/
structure RecipeView where
  id : Nat
  mod_name : String
  path : String
  recipe_type : String
  result_item : Option String
  result_count : Option Int
  ingredients : List String
  raw_json : String
deriving Repr, DecidableEq

/-- `get_ingredients_for_recipe`: `SELECT DISTINCT item … ORDER BY item` —
the sorted set of the recipe's ingredient items. -/
def get_ingredients_for_recipe (db : DB) (recipe_id : Nat) : List String :=
  sortDedup ((db.ingredients.filter (fun g => g.recipe_id == recipe_id)).map (fun g => g.item))

/-- The view row built from a recipe row and its joined mod row. -/
def mkView (db : DB) (r : RecipeRow) (m : ModRow) : RecipeView :=
  { id := r.id, mod_name := m.name, path := r.path, recipe_type := r.recipe_type,
    result_item := r.result_item, result_count := r.result_count,
    ingredients := get_ingredients_for_recipe db r.id, raw_json := r.raw_json }

/-- The `JOIN mods m ON r.mod_id = m.id` plus `collect_recipes`: the view
of one recipe row, `none` when no mod row matches. -/
def recipeView (db : DB) (r : RecipeRow) : Option RecipeView :=
  (db.mods.find? (fun m => m.id == r.mod_id)).map (mkView db r)

/-- `ORDER BY m.name, r.path` as a relation on views. -/
def listKeyLE (v w : RecipeView) : Prop :=
  v.mod_name < w.mod_name ∨ (v.mod_name = w.mod_name ∧ v.path ≤ w.path)

instance : DecidableRel listKeyLE := fun v w => by
  unfold listKeyLE; infer_instance

instance : IsTotal RecipeView listKeyLE := by
  constructor
  intro a b
  unfold listKeyLE
  rcases lt_trichotomy a.mod_name b.mod_name with h | h | h
  · exact Or.inl (Or.inl h)
  · rcases le_total a.path b.path with h2 | h2
    · exact Or.inl (Or.inr ⟨h, h2⟩)
    · exact Or.inr (Or.inr ⟨h.symm, h2⟩)
  · exact Or.inr (Or.inl h)

instance : IsTrans RecipeView listKeyLE := by
  constructor
  intro a b c hab hbc
  unfold listKeyLE at *
  rcases hab with h | ⟨h1, h2⟩
  · rcases hbc with h' | ⟨h1', _⟩
    · exact Or.inl (h.trans h')
    · exact Or.inl (h1' ▸ h)
  · rcases hbc with h' | ⟨h1', h2'⟩
    · exact Or.inl (h1 ▸ h')
    · exact Or.inr ⟨h1.trans h1', h2.trans h2'⟩

/-- Strict order on nullable text columns: NULL sorts before every string
(SQLite ASC puts NULLs first). -/
def optLT : Option String → Option String → Prop
  | none, none => False
  | none, some _ => True
  | some _, none => False
  | some a, some b => a < b

instance : DecidableRel optLT := fun o p => by
  rcases o with _ | a <;> rcases p with _ | b <;> unfold optLT <;> infer_instance

theorem optLT_trichotomy (o p : Option String) : optLT o p ∨ o = p ∨ optLT p o := by
  rcases o with _ | a <;> rcases p with _ | b <;> unfold optLT
  · exact Or.inr (Or.inl rfl)
  · exact Or.inl trivial
  · exact Or.inr (Or.inr trivial)
  · rcases lt_trichotomy a b with h | h | h
    · exact Or.inl h
    · exact Or.inr (Or.inl (by rw [h]))
    · exact Or.inr (Or.inr h)

theorem optLT_trans {o p q : Option String} (h1 : optLT o p) (h2 : optLT p q) : optLT o q := by
  rcases o with _ | a <;> rcases p with _ | b <;> rcases q with _ | c <;>
    unfold optLT at * <;> first
      | trivial
      | exact h1.trans h2

/-- `ORDER BY r.result_item, m.name` as a relation on views. -/
def searchKeyLE (v w : RecipeView) : Prop :=
  optLT v.result_item w.result_item ∨
    (v.result_item = w.result_item ∧ v.mod_name ≤ w.mod_name)

instance : DecidableRel searchKeyLE := fun v w => by
  unfold searchKeyLE; infer_instance

instance : IsTotal RecipeView searchKeyLE := by
  constructor
  intro a b
  unfold searchKeyLE
  rcases optLT_trichotomy a.result_item b.result_item with h | h | h
  · exact Or.inl (Or.inl h)
  · rcases le_total a.mod_name b.mod_name with h2 | h2
    · exact Or.inl (Or.inr ⟨h, h2⟩)
    · exact Or.inr (Or.inr ⟨h.symm, h2⟩)
  · exact Or.inr (Or.inl h)

instance : IsTrans RecipeView searchKeyLE := by
  constructor
  intro a b c hab hbc
  unfold searchKeyLE at *
  rcases hab with h | ⟨h1, h2⟩
  · rcases hbc with h' | ⟨h1', _⟩
    · exact Or.inl (optLT_trans h h')
    · exact Or.inl (h1' ▸ h)
  · rcases hbc with h' | ⟨h1', h2'⟩
    · exact Or.inl (h1 ▸ h')
    · exact Or.inr ⟨h1.trans h1', h2.trans h2'⟩

/-- `list_recipes(offset, limit)`: joined views ordered by
`(mod_name, path)`, then `LIMIT ?1 OFFSET ?2` (a negative limit means
no limit, a negative offset means 0 — SQLite semantics). -/
def list_recipes (db : DB) (offset limit : Int) : List RecipeView :=
  let sorted := (db.recipes.filterMap (recipeView db)).insertionSort listKeyLE
  let afterOffset := sorted.drop (max offset 0).toNat
  if limit < 0 then afterOffset else afterOffset.take limit.toNat

/-- `get_recipe_count`: `SELECT COUNT(*) FROM recipes`. -/
def get_recipe_count (db : DB) : Nat :=
  db.recipes.length

/-! ## SQLite LIKE

`LIKE` with the default settings: `%` matches any sequence, `_` matches
any single character, other characters compare after ASCII-only case
folding.  The searches build the pattern `"%" ++ term ++ "%"`. -/

/-- ASCII-only lower-casing, as SQLite's default LIKE does. -/
def lowerAscii (c : Char) : Char :=
  if 'A' ≤ c ∧ c ≤ 'Z' then Char.ofNat (c.toNat + 32) else c

/-- Does `f` accept some suffix of the string (including the string
itself and the empty suffix)?  This is how a `%` wildcard consumes any
prefix of the remaining column text. -/
def likeSuffix (f : List Char → Bool) : List Char → Bool
  | [] => f []
  | c :: t => f (c :: t) || likeSuffix f t

/-- `LIKE` pattern matching on character lists: `%` matches any sequence,
`_` exactly one character, anything else one case-folded character. -/
def likeL : List Char → List Char → Bool
  | [], s => s.isEmpty
  | p :: ps, s =>
      if p = '%' then
        likeSuffix (fun t => likeL ps t) s
      else
        match s with
        | [] => false
        | c :: t =>
            if p = '_' then likeL ps t
            else lowerAscii p == lowerAscii c && likeL ps t

/-- `column LIKE pattern` on strings. -/
def likeMatch (pattern column : String) : Bool :=
  likeL pattern.data column.data

/-- `search_by_output`: recipes whose `result_item` LIKE `%item%` (NULL
never matches), joined with mods, ordered by `(result_item, mod_name)`. -/
def search_by_output (db : DB) (item : String) : List RecipeView :=
  let pat := "%" ++ item ++ "%"
  let rows := db.recipes.filter (fun r =>
    match r.result_item with
    | some it => likeMatch pat it
    | none => false)
  (rows.filterMap (recipeView db)).insertionSort searchKeyLE

/-- `search_by_ingredient`: `SELECT DISTINCT` over the recipes joined with
mods and with an ingredient row whose item is LIKE `%item%`, ordered by
`(result_item, mod_name)`.  All selected columns are determined by the
recipe row (`r.id` is the primary key), so DISTINCT collapses the join
multiplicity to one row per matching recipe row. -/
def search_by_ingredient (db : DB) (item : String) : List RecipeView :=
  let pat := "%" ++ item ++ "%"
  let rows := db.recipes.filter (fun r =>
    db.ingredients.any (fun g => g.recipe_id == r.id && likeMatch pat g.item))
  (rows.filterMap (recipeView db)).insertionSort searchKeyLE

/-! ## The recipe-entry filter (lib.rs, `extract_all_recipes`) -/

/-- The candidate-recipe-file test applied to each archive entry name:
split on `/`, require at least 4 segments, segment 0 `"data"`, segment 2
`"recipe"` or `"recipes"`, and a `".json"` suffix. -/
def isRecipeEntry (entry_name : String) : Bool :=
  let parts := entry_name.splitOn "/"
  decide (parts.length ≥ 4) && parts.getD 0 "" == "data" &&
    (parts.getD 2 "" == "recipe" || parts.getD 2 "" == "recipes") &&
    entry_name.endsWith ".json"

/-! ## Concrete scenarios used by the claims -/

/-- Case-folded character list of a string, for stating case-insensitive
containment the way the spec words it. -/
def lowerL (s : List Char) : List Char :=
  s.map lowerAscii

/-- Case-insensitive unanchored containment, the spec's notion of a
matching ingredient identifier. -/
def containsCI (needle hay : String) : Bool :=
  containsL (lowerL hay.data) (lowerL needle.data)

/-- A recipe document whose type names a special recipe but which also
carries a result object. -/
def specialWithResult : Json :=
  .obj [("type", .str "minecraft:crafting_special_firework_rocket"),
        ("result", .obj [("item", .str "minecraft:firework_rocket"), ("count", .num 3)])]

/-- One mod, then `insert_recipe` twice with the same `(mod_id, path)`
fingerprint and two different one-element ingredient lists. -/
def dbReinsertRecipe : DB :=
  (insert_recipe
    (insert_recipe
      (insert_mod DB.empty "mod_a" "/mods/a.jar" "100").2
      1 "data/a/recipe/x.json" "minecraft:smelting" (some "out") (some 1) "{}"
      ["ing_first"]).2
    1 "data/a/recipe/x.json" "minecraft:smelting" (some "out") (some 1) "{}"
    ["ing_second"]).2

/-- `dbReinsertRecipe` followed by a second `insert_mod` with the same
path, replacing the mod row. -/
def dbReinsertMod : DB :=
  (insert_mod dbReinsertRecipe "mod_a" "/mods/a.jar" "200").2

/-- A store with one mod and one recipe whose only ingredient is `"ab"`
(no underscore anywhere). -/
def dbNoUnderscore : DB :=
  (insert_recipe
    (insert_mod DB.empty "mod_a" "/mods/a.jar" "100").2
    1 "data/a/recipe/x.json" "t" (some "out") (some 1) "{}"
    ["ab"]).2

/-- A store with one mod and two recipes, one of whose ingredients
contains "stick". -/
def dbStick : DB :=
  (insert_recipe
    (insert_recipe
      (insert_mod DB.empty "mod_a" "/mods/a.jar" "100").2
      1 "data/a/recipe/x.json" "t" (some "minecraft:ladder") (some 1) "{}"
      ["minecraft:Stick", "minecraft:plank"]).2
    1 "data/a/recipe/y.json" "t" (some "minecraft:door") (some 1) "{}"
    ["minecraft:plank"]).2

/-- Mod `a` together with one of its recipes. -/
def dbA : DB :=
  (insert_recipe
    (insert_mod DB.empty "mod_a" "/mods/a.jar" "100").2
    1 "data/a/recipe/x.json" "t" (some "item_a") (some 1) "{}" ["ing_a"]).2

/-- `dbA` after registering mod `b` (the first `insert_mod` for its
path). -/
def dbB1 : DB :=
  (insert_mod dbA "mod_b" "/mods/b.jar" "110").2

/-- `dbB1` after inserting a recipe under mod `b`. -/
def dbTwoModsMid : DB :=
  (insert_recipe dbB1 2 "data/b/recipe/y.json" "t" (some "item_b") (some 1) "{}" ["ing_b"]).2

/-- `dbTwoModsMid` after re-registering mod `b`'s path. -/
def dbTwoModsReplaced : DB :=
  (insert_mod dbTwoModsMid "mod_b" "/mods/b.jar" "200").2

/-- Zero or more `insert_recipe` calls between two states (the writes an
extraction run performs between two mod registrations). -/
inductive InsertRecipeSteps (db : DB) : DB → Prop where
  | refl : InsertRecipeSteps db db
  | step (db' : DB) (mod_id : Nat) (path recipe_type : String)
      (result_item : Option String) (result_count : Option Int)
      (raw_json : String) (ingredients : List String) :
      InsertRecipeSteps db db' →
      InsertRecipeSteps db
        (insert_recipe db' mod_id path recipe_type result_item result_count
          raw_json ingredients).2

/-! ## Helper lemmas -/

theorem mem_dedupAdj {l : List String} {x : String} (h : x ∈ dedupAdj l) : x ∈ l := by
  induction l with
  | nil => simp [dedupAdj] at h
  | cons a t ih =>
      match t, h with
      | [], h => simpa [dedupAdj] using h
      | b :: rest, h =>
          rw [dedupAdj] at h
          by_cases hab : a = b
          · rw [if_pos hab] at h
            exact List.mem_cons_of_mem a (ih h)
          · rw [if_neg hab] at h
            rcases List.mem_cons.mp h with rfl | h2
            · exact List.mem_cons_self _ _
            · exact List.mem_cons_of_mem a (ih h2)

theorem dedupAdj_sorted : ∀ {l : List String},
    l.Sorted (· ≤ ·) → (dedupAdj l).Sorted (· < ·)
  | [], _ => by simp [dedupAdj]
  | [a], _ => by simp [dedupAdj]
  | a :: b :: rest, h => by
      have htail : (b :: rest).Sorted (· ≤ ·) := h.of_cons
      have hIH := dedupAdj_sorted htail
      rw [dedupAdj]
      by_cases hab : a = b
      · rw [if_pos hab]
        exact hIH
      · rw [if_neg hab]
        refine List.sorted_cons.mpr ⟨?_, hIH⟩
        intro x hx
        have hxmem : x ∈ b :: rest := mem_dedupAdj hx
        have hab' : a ≤ b := List.rel_of_sorted_cons h b (List.mem_cons_self _ _)
        have haltb : a < b := lt_of_le_of_ne hab' hab
        rcases List.mem_cons.mp hxmem with rfl | hxr
        · exact haltb
        · exact lt_of_lt_of_le haltb (List.rel_of_sorted_cons htail x hxr)

theorem sortDedup_sorted_lt (l : List String) : (sortDedup l).Sorted (· < ·) :=
  dedupAdj_sorted (List.sorted_insertionSort (· ≤ ·) l)

theorem sortDedup_sorted_le (l : List String) : (sortDedup l).Sorted (· ≤ ·) :=
  (sortDedup_sorted_lt l).imp (fun h => le_of_lt h)

theorem sortDedup_nodup (l : List String) : (sortDedup l).Nodup :=
  (sortDedup_sorted_lt l).imp (fun h => ne_of_lt h)

theorem le_foldr_max {x : Nat} {ids : List Nat} (h : x ∈ ids) : x ≤ ids.foldr max 0 := by
  induction ids with
  | nil => cases h
  | cons a t ih =>
      rcases List.mem_cons.mp h with rfl | h2
      · exact le_max_left _ _
      · exact le_trans (ih h2) (le_max_right _ _)

theorem mem_lt_nextId {x : Nat} {ids : List Nat} (h : x ∈ ids) : x < nextId ids :=
  Nat.lt_succ_of_le (le_foldr_max h)

theorem steps_mods {db db' : DB} (h : InsertRecipeSteps db db') : db'.mods = db.mods := by
  induction h with
  | refl => rfl
  | step db' mod_id path rt ri rc raw ings _ ih => exact ih

theorem steps_recipes_id_nodup {db db' : DB} (h : InsertRecipeSteps db db')
    (hn : (db.recipes.map (fun r => r.id)).Nodup) :
    (db'.recipes.map (fun r => r.id)).Nodup := by
  induction h with
  | refl => exact hn
  | step db' mod_id path rt ri rc raw ings _ ih =>
      have hrw : ((insert_recipe db' mod_id path rt ri rc raw ings).2).recipes
          = db'.recipes.filter (fun r => !(r.mod_id == mod_id && r.path == path)) ++
            [{ id := nextId (db'.recipes.map (fun r => r.id)), mod_id := mod_id,
               path := path, recipe_type := rt, result_item := ri,
               result_count := rc, raw_json := raw }] := rfl
      rw [hrw, List.map_append]
      have hsub : ((db'.recipes.filter
            (fun r => !(r.mod_id == mod_id && r.path == path))).map (fun r => r.id)).Sublist
          (db'.recipes.map (fun r => r.id)) :=
        (List.filter_sublist _).map _
      refine List.nodup_append.mpr ⟨ih.sublist hsub, List.nodup_singleton _, ?_⟩
      intro x hx hy
      have hx2 : x ∈ db'.recipes.map (fun r => r.id) := hsub.subset hx
      have hlt : x < nextId (db'.recipes.map (fun r => r.id)) := mem_lt_nextId hx2
      have : x = nextId (db'.recipes.map (fun r => r.id)) := by simpa using hy
      omega

theorem recipeView_id {db : DB} {r : RecipeRow} {v : RecipeView}
    (h : recipeView db r = some v) : v.id = r.id := by
  unfold recipeView at h
  cases hf : db.mods.find? (fun m => m.id == r.mod_id) with
  | none => rw [hf] at h; cases h
  | some m =>
      rw [hf] at h
      cases h
      rfl

theorem recipeView_mod {db : DB} {r : RecipeRow} {v : RecipeView}
    (h : recipeView db r = some v) :
    ∃ m ∈ db.mods, m.id = r.mod_id ∧ v = mkView db r m := by
  unfold recipeView at h
  cases hf : db.mods.find? (fun m => m.id == r.mod_id) with
  | none => rw [hf] at h; cases h
  | some m =>
      rw [hf] at h
      cases h
      refine ⟨m, List.mem_of_find?_eq_some hf, ?_, rfl⟩
      have := List.find?_some hf
      simpa using this

theorem mem_list_recipes {db : DB} {v : RecipeView} {off lim : Int}
    (h : v ∈ list_recipes db off lim) :
    ∃ r ∈ db.recipes, recipeView db r = some v := by
  simp only [list_recipes] at h
  have h2 : v ∈ (db.recipes.filterMap (recipeView db)).insertionSort listKeyLE := by
    by_cases hl : lim < 0
    · rw [if_pos hl] at h
      exact List.mem_of_mem_drop h
    · rw [if_neg hl] at h
      exact List.mem_of_mem_drop (List.mem_of_mem_take h)
  have h3 : v ∈ db.recipes.filterMap (recipeView db) :=
    (List.Perm.mem_iff (List.perm_insertionSort listKeyLE _)).mp h2
  exact List.mem_filterMap.mp h3

theorem mem_search_by_output {db : DB} {v : RecipeView} {term : String}
    (h : v ∈ search_by_output db term) :
    ∃ r ∈ db.recipes, recipeView db r = some v := by
  simp only [search_by_output] at h
  have h3 := (List.Perm.mem_iff (List.perm_insertionSort searchKeyLE _)).mp h
  obtain ⟨r, hr, hv⟩ := List.mem_filterMap.mp h3
  exact ⟨r, List.mem_of_mem_filter hr, hv⟩

theorem mem_search_by_ingredient {db : DB} {v : RecipeView} {term : String}
    (h : v ∈ search_by_ingredient db term) :
    ∃ r ∈ db.recipes, recipeView db r = some v := by
  simp only [search_by_ingredient] at h
  have h3 := (List.Perm.mem_iff (List.perm_insertionSort searchKeyLE _)).mp h
  obtain ⟨r, hr, hv⟩ := List.mem_filterMap.mp h3
  exact ⟨r, List.mem_of_mem_filter hr, hv⟩

theorem likeL_nil (s : List Char) : likeL [] s = s.isEmpty := rfl

theorem likeL_cons (p : Char) (ps s : List Char) :
    likeL (p :: ps) s =
      if p = '%' then
        likeSuffix (fun t => likeL ps t) s
      else
        match s with
        | [] => false
        | c :: t =>
            if p = '_' then likeL ps t
            else lowerAscii p == lowerAscii c && likeL ps t := rfl

theorem likeL_pct_all (s : List Char) : likeL ['%'] s = true := by
  induction s with
  | nil => rfl
  | cons c t ih =>
      show (likeL [] (c :: t) || likeSuffix (fun u => likeL [] u) t) = true
      rw [show likeL [] (c :: t) = false from rfl, Bool.false_or]
      exact ih

theorem likeL_plain_pct (ps : List Char) (hw : ∀ c ∈ ps, c ≠ '%' ∧ c ≠ '_') :
    ∀ s : List Char, likeL (ps ++ ['%']) s = (lowerL ps).isPrefixOf (lowerL s) := by
  induction ps with
  | nil =>
      intro s
      simp only [List.nil_append, likeL_pct_all s, lowerL, List.map_nil]
      rw [List.isPrefixOf_nil_left]
  | cons p ps ih =>
      have hp := hw p (List.mem_cons_self p ps)
      have hw' : ∀ c ∈ ps, c ≠ '%' ∧ c ≠ '_' := fun c hc => hw c (List.mem_cons_of_mem p hc)
      intro s
      cases s with
      | nil =>
          rw [List.cons_append, likeL_cons, if_neg hp.1]
          show false = (lowerL (p :: ps)).isPrefixOf (lowerL [])
          show false = (lowerAscii p :: lowerL ps).isPrefixOf []
          rfl
      | cons c t =>
          rw [List.cons_append, likeL_cons, if_neg hp.1]
          show (if p = '_' then likeL (ps ++ ['%']) t
                else lowerAscii p == lowerAscii c && likeL (ps ++ ['%']) t) =
              (lowerL (p :: ps)).isPrefixOf (lowerL (c :: t))
          rw [if_neg hp.2, ih hw' t]
          show (lowerAscii p == lowerAscii c && (lowerL ps).isPrefixOf (lowerL t)) =
              (lowerAscii p :: lowerL ps).isPrefixOf (lowerAscii c :: lowerL t)
          rfl

theorem likeL_pct_wrap (ps : List Char) (hw : ∀ c ∈ ps, c ≠ '%' ∧ c ≠ '_') :
    ∀ s : List Char, likeL ('%' :: (ps ++ ['%'])) s = containsL (lowerL s) (lowerL ps) := by
  intro s
  induction s with
  | nil =>
      show likeL (ps ++ ['%']) [] = ((lowerL ps).isPrefixOf [] || false)
      rw [likeL_plain_pct ps hw, Bool.or_false]
      rfl
  | cons c t ih =>
      have ih' : likeSuffix (fun u => likeL (ps ++ ['%']) u) t =
          containsL (lowerL t) (lowerL ps) := ih
      show (likeL (ps ++ ['%']) (c :: t) || likeSuffix (fun u => likeL (ps ++ ['%']) u) t) =
          ((lowerL ps).isPrefixOf (lowerL (c :: t)) || containsL (lowerL t) (lowerL ps))
      rw [likeL_plain_pct ps hw, ih']

theorem likeMatch_contains (term : String) (hw : ∀ c ∈ term.data, c ≠ '%' ∧ c ≠ '_')
    (s : String) : likeMatch ("%" ++ term ++ "%") s = containsCI term s := by
  unfold likeMatch containsCI
  have e : ("%" ++ term ++ "%").data = '%' :: (term.data ++ ['%']) := by
    rw [String.data_append, String.data_append]
    rfl
  rw [e]
  exact likeL_pct_wrap term.data hw s.data

theorem containsL_iff (hay needle : List Char) :
    containsL hay needle = true ↔ ∃ a b, hay = a ++ needle ++ b := by
  induction hay with
  | nil =>
      cases needle with
      | nil => simp [containsL, List.isPrefixOf]
      | cons c cs =>
          simp [containsL, List.isPrefixOf]
  | cons h t ih =>
      have e : containsL (h :: t) needle = (needle.isPrefixOf (h :: t) || containsL t needle) := rfl
      rw [e]
      constructor
      · intro hor
        rcases Bool.or_eq_true _ _ |>.mp hor with hpre | hrest
        · obtain ⟨u, hu⟩ := List.isPrefixOf_iff_prefix.mp hpre
          exact ⟨[], u, by rw [← hu]; simp⟩
        · obtain ⟨a, b, hab⟩ := ih.mp hrest
          exact ⟨h :: a, b, by rw [hab]; simp⟩
      · rintro ⟨a, b, hab⟩
        cases a with
        | nil =>
            refine Bool.or_eq_true _ _ |>.mpr (Or.inl ?_)
            refine List.isPrefixOf_iff_prefix.mpr ⟨b, ?_⟩
            simp at hab
            rw [hab]
        | cons a0 a' =>
            refine Bool.or_eq_true _ _ |>.mpr (Or.inr ?_)
            refine ih.mpr ⟨a', b, ?_⟩
            simpa using congrArg List.tail hab

theorem containsCI_iff (needle hay : String) :
    containsCI needle hay = true ↔
      ∃ a b, lowerL hay.data = a ++ lowerL needle.data ++ b := by
  unfold containsCI
  exact containsL_iff _ _

theorem find?_mod_eq {db : DB} (hnm : (db.mods.map (fun m => m.id)).Nodup)
    {mod_id : Nat} {m : ModRow} (hm : m ∈ db.mods) (hid : m.id = mod_id) :
    db.mods.find? (fun m' => m'.id == mod_id) = some m := by
  cases hf : db.mods.find? (fun m' => m'.id == mod_id) with
  | none =>
      have := List.find?_eq_none.mp hf m hm
      simp [hid] at this
  | some m' =>
      have hm' := List.mem_of_find?_eq_some hf
      have hp : m'.id = mod_id := by simpa using List.find?_some hf
      have : m' = m := List.inj_on_of_nodup_map hnm hm' hm (by rw [hp, hid])
      rw [this]

theorem filterMap_view_ids_sublist (db : DB) (rows : List RecipeRow) :
    ((rows.filterMap (recipeView db)).map (fun v => v.id)).Sublist
      (rows.map (fun r => r.id)) := by
  induction rows with
  | nil => simp
  | cons r t ih =>
      cases hv : recipeView db r with
      | none =>
          rw [List.filterMap_cons_none hv, List.map_cons]
          exact ih.cons _
      | some v =>
          rw [List.filterMap_cons_some hv, List.map_cons, List.map_cons,
            recipeView_id hv]
          exact ih.cons₂ _

theorem parse_ingredients_eq (j : Json) :
    (parseRecipeVal j).ingredients = sortDedup (ingredientDispatch (parseType j) j) := rfl

theorem parse_type_eq (j : Json) : (parseRecipeVal j).recipe_type = parseType j := rfl

theorem parse_result_count_eq (j : Json) :
    (parseRecipeVal j).result_count =
      (match j.get "result" with
       | some result => extract_item_and_count result
       | none => (none, none)).2 := rfl

theorem parse_result_item_eq (j : Json) :
    (parseRecipeVal j).result_item =
      (if (parseType j = "minecraft:stonecutting" ∨ parseType j = "stonecutting") ∧
          (match j.get "result" with
           | some result => extract_item_and_count result
           | none => ((none : Option String), (none : Option Int))).1 = none then
        (j.get "result").bind Json.asStr
      else
        (match j.get "result" with
         | some result => extract_item_and_count result
         | none => (none, none)).1) := rfl

theorem result_absent_item (j : Json) (hres : j.get "result" = none) :
    (parseRecipeVal j).result_item = none := by
  rw [parse_result_item_eq, hres]
  split <;> rfl

theorem result_absent_count (j : Json) (hres : j.get "result" = none) :
    (parseRecipeVal j).result_count = none := by
  rw [parse_result_count_eq, hres]

theorem dispatch_special (rtype : String) (v : Json)
    (h : strContains rtype "special" = true) :
    ingredientDispatch rtype v = [] := by
  have h1 : ¬(rtype = "minecraft:crafting_shaped" ∨ rtype = "crafting_shaped") := by
    rintro (rfl | rfl) <;> exact absurd h (by decide)
  have h2 : ¬(rtype = "minecraft:crafting_shapeless" ∨ rtype = "crafting_shapeless") := by
    rintro (rfl | rfl) <;> exact absurd h (by decide)
  have h3 : ¬(rtype = "minecraft:smelting" ∨ rtype = "minecraft:blasting" ∨
      rtype = "minecraft:smoking" ∨ rtype = "minecraft:campfire_cooking" ∨
      rtype = "smelting" ∨ rtype = "blasting" ∨
      rtype = "smoking" ∨ rtype = "campfire_cooking") := by
    rintro (rfl | rfl | rfl | rfl | rfl | rfl | rfl | rfl) <;> exact absurd h (by decide)
  have h4 : ¬(rtype = "minecraft:stonecutting" ∨ rtype = "stonecutting") := by
    rintro (rfl | rfl) <;> exact absurd h (by decide)
  have h5 : ¬(rtype = "minecraft:smithing_transform" ∨ rtype = "minecraft:smithing_trim" ∨
      rtype = "smithing_transform" ∨ rtype = "smithing_trim") := by
    rintro (rfl | rfl | rfl | rfl) <;> exact absurd h (by decide)
  have h6 : ¬(rtype = "minecraft:smithing" ∨ rtype = "smithing") := by
    rintro (rfl | rfl) <;> exact absurd h (by decide)
  unfold ingredientDispatch
  rw [if_neg h1, if_neg h2, if_neg h3, if_neg h4, if_neg h5, if_neg h6, if_pos h]

theorem dispatch_no_fields (rtype : String) (v : Json)
    (hing : v.get "ingredients" = none) (hing1 : v.get "ingredient" = none)
    (hkey : v.get "key" = none) (hinp : v.get "input" = none)
    (hinps : v.get "inputs" = none) (hbase : v.get "base" = none)
    (hadd : v.get "addition" = none) (htmp : v.get "template" = none) :
    ingredientDispatch rtype v = [] := by
  unfold ingredientDispatch
  simp [hing, hing1, hkey, hinp, hinps, hbase, hadd, htmp, Option.or]

/-! ## Claims -/

/-- C1 fails on the code as shipped: `insert_recipe` re-run on the same
`(mod_id, path)` replaces the recipe row under a fresh rowid (2), deletes
ingredient rows of that fresh rowid (none) and inserts the second list,
so the current fingerprint row carries exactly the second list — but the
first call's ingredient row survives, orphaned under the dead recipe
rowid 1, because the connection never enables foreign-key enforcement and
the `DELETE` targets the new rowid.  The schema's `ON DELETE CASCADE` and
the source comment "Clear existing ingredients for this recipe (in case
of replace)" show the claimed behaviour is the intent. -/
theorem C1_orphaned_ingredient_rows :
    get_ingredients_for_recipe dbReinsertRecipe 2 = ["ing_second"] ∧
      ({ id := 1, recipe_id := 1, item := "ing_first" } : IngRow) ∈
        dbReinsertRecipe.ingredients := by
  decide

/-- C3 fails on the code as shipped: after re-registering a mod path,
`get_recipe_count` still counts the orphaned recipe row (1) while the
unbounded `list_recipes` scan, whose join needs a live mod row, returns
nothing.  With the declared (but never enabled) foreign-key cascade the
orphan would have been deleted and the two would agree. -/
theorem C3_count_list_divergence :
    get_recipe_count dbReinsertMod = 1 ∧ list_recipes dbReinsertMod 0 (-1) = [] := by
  decide

/-- C2 fails as stated: the normalizer extracts the result before the
type dispatch, so a `"special"`-typed document that carries a `result`
field still gets a result item and count (here `firework_rocket` × 3),
although its ingredient list is empty. -/
theorem C2_special_counterexample :
    strContains (parseRecipeVal specialWithResult).recipe_type "special" = true ∧
      (parseRecipeVal specialWithResult).result_item = some "minecraft:firework_rocket" ∧
      (parseRecipeVal specialWithResult).result_count = some 3 ∧
      (parseRecipeVal specialWithResult).ingredients = [] := by
  refine ⟨by decide, ?_, ?_, ?_⟩ <;> rfl

/-- C2 (amended): a type containing the substring `"special"` yields an
empty ingredient list, but it does not suppress the result: the result
item and count are exactly what the ordinary result resolution
(`extract_item_and_count` on the `result` field) produces — so both are
absent precisely when the `result` field is missing or its value is
neither a string nor an object. -/
theorem C2_special_amended (j : Json)
    (h : strContains (parseType j) "special" = true) :
    (parseRecipeVal j).ingredients = [] ∧
      (parseRecipeVal j).result_item =
        (match j.get "result" with
         | some result => extract_item_and_count result
         | none => (none, none)).1 ∧
      (parseRecipeVal j).result_count =
        (match j.get "result" with
         | some result => extract_item_and_count result
         | none => (none, none)).2 := by
  refine ⟨?_, ?_, parse_result_count_eq j⟩
  · rw [parse_ingredients_eq, dispatch_special _ _ h]
    rfl
  · rw [parse_result_item_eq]
    rw [if_neg]
    rintro ⟨hstone | hstone, -⟩ <;> rw [hstone] at h <;> exact absurd h (by decide)

/-- Witness for the amended C2 at a concrete special-typed document whose
`result` field is present but holds a number: the ingredient list is
empty and the result item and count both come out absent even though the
field is there. -/
theorem C2_special_amended_witness :
    strContains (parseType (Json.obj [("type", Json.str "crafting_special_x"),
        ("result", Json.num 42)])) "special" = true ∧
      (parseRecipeVal (Json.obj [("type", Json.str "crafting_special_x"),
        ("result", Json.num 42)])).ingredients = [] ∧
      (parseRecipeVal (Json.obj [("type", Json.str "crafting_special_x"),
        ("result", Json.num 42)])).result_item = none ∧
      (parseRecipeVal (Json.obj [("type", Json.str "crafting_special_x"),
        ("result", Json.num 42)])).result_count = none := by
  have h := C2_special_amended (Json.obj [("type", Json.str "crafting_special_x"),
    ("result", Json.num 42)]) (by decide)
  exact ⟨by decide, h.1, h.2.1.trans rfl, h.2.2.trans rfl⟩

/-- C4: the normalizer fails exactly on input that is not well-formed
JSON; on every well-formed input it succeeds, and absent fields degrade
to the `"unknown"` type, an absent result, or an empty ingredient list
rather than causing an error. -/
theorem C4_error_iff_not_json :
    (∀ o : Option Json, (∃ msg, parse_recipe o = .error msg) ↔ o = none) ∧
    (∀ j : Json,
      parse_recipe (some j) = .ok (parseRecipeVal j) ∧
      ((j.get "type").bind Json.asStr = none → (parseRecipeVal j).recipe_type = "unknown") ∧
      (j.get "result" = none →
        (parseRecipeVal j).result_item = none ∧ (parseRecipeVal j).result_count = none) ∧
      (j.get "ingredients" = none → j.get "ingredient" = none → j.get "key" = none →
        j.get "input" = none → j.get "inputs" = none → j.get "base" = none →
        j.get "addition" = none → j.get "template" = none →
        (parseRecipeVal j).ingredients = [])) := by
  constructor
  · intro o
    cases o with
    | none => exact ⟨fun _ => rfl, fun _ => ⟨"Invalid JSON", rfl⟩⟩
    | some j => simp [parse_recipe]
  · intro j
    refine ⟨rfl, ?_, fun hres => ⟨result_absent_item j hres, result_absent_count j hres⟩, ?_⟩
    · intro htype
      rw [parse_type_eq]
      unfold parseType
      rw [htype]
    · intro h1 h2 h3 h4 h5 h6 h7 h8
      rw [parse_ingredients_eq, dispatch_no_fields _ _ h1 h2 h3 h4 h5 h6 h7 h8]
      rfl

/-- Witness for C4: the error case at `none` and the degrade cases at the
empty object. -/
theorem C4_error_iff_not_json_witness :
    (∃ msg, parse_recipe none = .error msg) ∧
      parse_recipe (some (Json.obj [])) = .ok (parseRecipeVal (Json.obj [])) ∧
      (parseRecipeVal (Json.obj [])).recipe_type = "unknown" ∧
      (parseRecipeVal (Json.obj [])).result_item = none ∧
      (parseRecipeVal (Json.obj [])).ingredients = [] := by
  refine ⟨(C4_error_iff_not_json.1 none).mpr rfl,
    (C4_error_iff_not_json.2 (Json.obj [])).1,
    (C4_error_iff_not_json.2 (Json.obj [])).2.1 rfl,
    ((C4_error_iff_not_json.2 (Json.obj [])).2.2.1 rfl).1,
    (C4_error_iff_not_json.2 (Json.obj [])).2.2.2 rfl rfl rfl rfl rfl rfl rfl rfl⟩

/-- C5: for every well-formed JSON input, the ingredient list returned by
the normalizer is sorted in ascending lexicographic order and contains no
duplicate entries, whatever the ordering or multiplicity of the
ingredient entries of the input. -/
theorem C7_search_core (db : DB) (term : String) :
    search_by_ingredient db term =
      ((db.recipes.filter (fun r =>
        db.ingredients.any (fun g => g.recipe_id == r.id &&
          likeMatch ("%" ++ term ++ "%") g.item))).filterMap
            (recipeView db)).insertionSort searchKeyLE := rfl

/-- C7 fails as stated for search substrings containing the LIKE
wildcards: searching for `"_"` matches the wildcard-free ingredient
`"ab"` (the pattern `%_%` accepts any non-empty item), although no stored
ingredient identifier contains an underscore. -/
theorem C7_wildcard_counterexample :
    (search_by_ingredient dbNoUnderscore "_").map (fun v => v.id) = [1] ∧
      dbNoUnderscore.ingredients.all (fun g => !(containsCI "_" g.item)) = true := by
  decide

/-- C7 (amended): for every store state (with the primary-key uniqueness
the schema guarantees) and every search substring free of the LIKE
wildcards `%` and `_`, `search_by_ingredient` returns exactly the
recipes, joined with their mod, having at least one stored ingredient
whose identifier contains the substring case-insensitively; each such
recipe appears exactly once even when several of its ingredients match,
and the output is ordered by `(result_item, mod_name)`. -/
theorem C7_search_by_ingredient_amended (db : DB) (term : String)
    (hnr : (db.recipes.map (fun r => r.id)).Nodup)
    (hnm : (db.mods.map (fun m => m.id)).Nodup)
    (hw : ∀ c ∈ term.data, c ≠ '%' ∧ c ≠ '_') :
    (∀ v : RecipeView,
      v ∈ search_by_ingredient db term ↔
        ∃ r ∈ db.recipes, ∃ m ∈ db.mods, m.id = r.mod_id ∧
          (∃ g ∈ db.ingredients, g.recipe_id = r.id ∧
            ∃ a b, lowerL g.item.data = a ++ lowerL term.data ++ b) ∧
          v = mkView db r m) ∧
    ((search_by_ingredient db term).map (fun v => v.id)).Nodup ∧
    (search_by_ingredient db term).Pairwise searchKeyLE := by
  refine ⟨?_, ?_, ?_⟩
  · intro v
    rw [C7_search_core]
    rw [List.Perm.mem_iff (List.perm_insertionSort _ _)]
    rw [List.mem_filterMap]
    constructor
    · rintro ⟨r, hrf, hview⟩
      have hr := List.mem_of_mem_filter hrf
      have hpred := List.of_mem_filter hrf
      obtain ⟨m, hm, hmid, hveq⟩ := recipeView_mod hview
      obtain ⟨g, hg, hand⟩ := List.any_eq_true.mp hpred
      rw [Bool.and_eq_true] at hand
      have hgid : g.recipe_id = r.id := by simpa using hand.1
      have hlike := hand.2
      rw [likeMatch_contains term hw] at hlike
      obtain ⟨a, b, hab⟩ := (containsCI_iff term g.item).mp hlike
      exact ⟨r, hr, m, hm, hmid, ⟨g, hg, hgid, a, b, hab⟩, hveq⟩
    · rintro ⟨r, hr, m, hm, hmid, ⟨g, hg, hgid, a, b, hab⟩, hveq⟩
      refine ⟨r, List.mem_filter.mpr ⟨hr, ?_⟩, ?_⟩
      · refine List.any_eq_true.mpr ⟨g, hg, ?_⟩
        rw [Bool.and_eq_true]
        refine ⟨by simp [hgid], ?_⟩
        rw [likeMatch_contains term hw]
        exact (containsCI_iff term g.item).mpr ⟨a, b, hab⟩
      · rw [recipeView, find?_mod_eq hnm hm hmid, hveq]
        rfl
  · rw [C7_search_core]
    have hperm := (List.perm_insertionSort searchKeyLE
      ((db.recipes.filter (fun r =>
        db.ingredients.any (fun g => g.recipe_id == r.id &&
          likeMatch ("%" ++ term ++ "%") g.item))).filterMap
            (recipeView db))).map (fun v => v.id)
    refine (List.Perm.nodup_iff hperm).mpr ?_
    have h1 := filterMap_view_ids_sublist db (db.recipes.filter (fun r =>
      db.ingredients.any (fun g => g.recipe_id == r.id &&
        likeMatch ("%" ++ term ++ "%") g.item)))
    have h2 : (((db.recipes.filter (fun r =>
        db.ingredients.any (fun g => g.recipe_id == r.id &&
          likeMatch ("%" ++ term ++ "%") g.item))).map (fun r => r.id)).Sublist
        (db.recipes.map (fun r => r.id))) :=
      (List.filter_sublist _).map _
    exact hnr.sublist (h1.trans h2)
  · rw [C7_search_core]
    exact List.sorted_insertionSort searchKeyLE _

/-- Witness for the amended C7: the `"stick"` search on a concrete store
returns each matching recipe exactly once. -/
theorem C7_search_by_ingredient_amended_witness :
    ((search_by_ingredient dbStick "stick").map (fun v => v.id)).Nodup :=
  (C7_search_by_ingredient_amended dbStick "stick" (by decide) (by decide) (by decide)).2.1

theorem C5_ingredients_sorted_nodup (j : Json) :
    (parseRecipeVal j).ingredients.Sorted (· ≤ ·) ∧
      (parseRecipeVal j).ingredients.Nodup := by
  have h1 : (parseRecipeVal j).ingredients =
      sortDedup (ingredientDispatch (parseType j) j) := rfl
  rw [h1]
  exact ⟨sortDedup_sorted_le _, sortDedup_nodup _⟩

/-- C6: an archive entry name passes the extraction orchestrator's
candidate filter exactly when its name split on `/` has at least 4
segments, segment 0 is `data`, segment 2 is `recipe` or `recipes`, and
the name ends with `.json`. -/
theorem C6_recipe_entry_filter (entry_name : String) :
    isRecipeEntry entry_name = true ↔
      (4 ≤ (entry_name.splitOn "/").length ∧
       (entry_name.splitOn "/")[0]? = some "data" ∧
       ((entry_name.splitOn "/")[2]? = some "recipe" ∨
        (entry_name.splitOn "/")[2]? = some "recipes") ∧
       entry_name.endsWith ".json" = true) := by
  unfold isRecipeEntry
  rcases hp : entry_name.splitOn "/" with _ | ⟨a, _ | ⟨b, _ | ⟨c, rest⟩⟩⟩ <;>
    simp [List.getD, List.length_cons]
  constructor
  · rintro ⟨⟨⟨h4, ha⟩, hc⟩, hjson⟩
    exact ⟨by omega, ha, hc, hjson⟩
  · rintro ⟨h4, ha, hc, hjson⟩
    exact ⟨⟨⟨by omega, ha⟩, hc⟩, hjson⟩

/-- C8: re-registering a mod path replaces the `mods` row under a fresh
rowid: the second `insert_mod` returns an id different from the first,
no surviving mod row carries the first id, and — with any recipes
inserted in between — no recipe row under the first mod id is ever
returned by `list_recipes` or by either search, since their inner join
needs a live mod row. -/
theorem C8_mod_reinsert_fresh_id
    (db : DB) (name1 path now1 name2 now2 : String)
    (m1 : Nat) (db1 dbMid : DB) (m2 : Nat) (db2 : DB)
    (h1 : insert_mod db name1 path now1 = (m1, db1))
    (hsteps : InsertRecipeSteps db1 dbMid)
    (h2 : insert_mod dbMid name2 path now2 = (m2, db2))
    (hn : (db.recipes.map (fun r => r.id)).Nodup) :
    m2 ≠ m1 ∧
    (∀ m ∈ db2.mods, m.id ≠ m1) ∧
    (∀ v : RecipeView,
      ((∃ off lim, v ∈ list_recipes db2 off lim) ∨
       (∃ term, v ∈ search_by_output db2 term) ∨
       (∃ term, v ∈ search_by_ingredient db2 term)) →
      ∀ r ∈ db2.recipes, r.id = v.id → r.mod_id ≠ m1) := by
  rw [show insert_mod db name1 path now1 =
      (nextId (db.mods.map (fun m => m.id)),
       { db with mods := db.mods.filter (fun m => !(m.path == path)) ++
           [{ id := nextId (db.mods.map (fun m => m.id)), name := name1,
              path := path, scanned_at := now1 }] }) from rfl] at h1
  obtain ⟨rfl, rfl⟩ := Prod.mk.inj h1
  rw [show insert_mod dbMid name2 path now2 =
      (nextId (dbMid.mods.map (fun m => m.id)),
       { dbMid with mods := dbMid.mods.filter (fun m => !(m.path == path)) ++
           [{ id := nextId (dbMid.mods.map (fun m => m.id)), name := name2,
              path := path, scanned_at := now2 }] }) from rfl] at h2
  obtain ⟨rfl, rfl⟩ := Prod.mk.inj h2
  have hmods : dbMid.mods = db.mods.filter (fun m => !(m.path == path)) ++
      [{ id := nextId (db.mods.map (fun m => m.id)), name := name1,
         path := path, scanned_at := now1 }] := steps_mods hsteps
  have hm1mem : nextId (db.mods.map (fun m => m.id)) ∈ dbMid.mods.map (fun m => m.id) := by
    rw [hmods, List.map_append]
    exact List.mem_append_right _ (by simp)
  have hlt : nextId (db.mods.map (fun m => m.id)) < nextId (dbMid.mods.map (fun m => m.id)) :=
    mem_lt_nextId hm1mem
  have hNoM1 : ∀ m ∈ dbMid.mods.filter (fun m => !(m.path == path)) ++
      [{ id := nextId (dbMid.mods.map (fun m => m.id)), name := name2,
         path := path, scanned_at := now2 }],
      m.id ≠ nextId (db.mods.map (fun m => m.id)) := by
    intro m hm
    rcases List.mem_append.mp hm with hmf | hms
    · have hmm : m ∈ dbMid.mods := List.mem_of_mem_filter hmf
      have hpath : m.path ≠ path := by
        have := List.of_mem_filter hmf
        simpa using this
      rw [hmods] at hmm
      rcases List.mem_append.mp hmm with hmd | hm1
      · have : m ∈ db.mods := List.mem_of_mem_filter hmd
        exact Nat.ne_of_lt (mem_lt_nextId (List.mem_map_of_mem (fun m => m.id) this))
      · rw [List.mem_singleton] at hm1
        exact absurd (by rw [hm1]) hpath
    · rw [List.mem_singleton] at hms
      rw [hms]
      exact Nat.ne_of_gt hlt
  refine ⟨Nat.ne_of_gt hlt, hNoM1, ?_⟩
  intro v hv r hr hid
  have hsrc : ∃ r' ∈ ({ dbMid with
      mods := dbMid.mods.filter (fun m => !(m.path == path)) ++
        [{ id := nextId (dbMid.mods.map (fun m => m.id)), name := name2,
           path := path, scanned_at := now2 }] } : DB).recipes,
      recipeView { dbMid with
        mods := dbMid.mods.filter (fun m => !(m.path == path)) ++
          [{ id := nextId (dbMid.mods.map (fun m => m.id)), name := name2,
             path := path, scanned_at := now2 }] } r' = some v := by
    rcases hv with ⟨off, lim, h⟩ | ⟨term, h⟩ | ⟨term, h⟩
    · exact mem_list_recipes h
    · exact mem_search_by_output h
    · exact mem_search_by_ingredient h
  obtain ⟨r', hr', hview⟩ := hsrc
  obtain ⟨m, hm, hmid, _⟩ := recipeView_mod hview
  have hnod2 : ((({ dbMid with
      mods := dbMid.mods.filter (fun m => !(m.path == path)) ++
        [{ id := nextId (dbMid.mods.map (fun m => m.id)), name := name2,
           path := path, scanned_at := now2 }] } : DB).recipes).map (fun r => r.id)).Nodup := by
    have hnodMid : (dbMid.recipes.map (fun r => r.id)).Nodup :=
      steps_recipes_id_nodup hsteps hn
    exact hnodMid
  have hrr : r = r' :=
    List.inj_on_of_nodup_map hnod2 hr hr' (by rw [hid, recipeView_id hview])
  rw [hrr, ← hmid]
  exact hNoM1 m hm

/-- Witness for C8 at two concrete mods, the second of which is
re-registered: the fresh id 3 differs from 2, and the one returned view
(mod `a`'s recipe) does not sit under the replaced mod id. -/
theorem C8_mod_reinsert_fresh_id_witness :
    (3 : Nat) ≠ 2 ∧
      ({ id := 1, mod_id := 1, path := "data/a/recipe/x.json", recipe_type := "t",
         result_item := some "item_a", result_count := some 1,
         raw_json := "{}" } : RecipeRow).mod_id ≠ 2 := by
  have h := C8_mod_reinsert_fresh_id dbA "mod_b" "/mods/b.jar" "110" "mod_b" "200"
    2 dbB1 dbTwoModsMid 3 dbTwoModsReplaced rfl
    (InsertRecipeSteps.step dbB1 2 "data/b/recipe/y.json" "t" (some "item_b") (some 1)
      "{}" ["ing_b"] InsertRecipeSteps.refl)
    rfl (by decide)
  refine ⟨h.1, ?_⟩
  exact h.2.2
    { id := 1, mod_name := "mod_a", path := "data/a/recipe/x.json", recipe_type := "t",
      result_item := some "item_a", result_count := some 1, ingredients := ["ing_a"],
      raw_json := "{}" }
    (Or.inl ⟨0, -1, by decide⟩)
    { id := 1, mod_id := 1, path := "data/a/recipe/x.json", recipe_type := "t",
      result_item := some "item_a", result_count := some 1, raw_json := "{}" }
    (by decide) (by decide)

/-- C9: a well-formed input whose top-level value is not an object
normalizes to recipe type `"unknown"`, no result item, no result count
and an empty ingredient list. -/
theorem C9_non_object_defaults (j : Json) (h : j.asObj = none) :
    parseRecipeVal j =
      { recipe_type := "unknown", result_item := none,
        result_count := none, ingredients := [] } := by
  cases j <;> first
    | rfl
    | simp [Json.asObj] at h

/-- Witness for C9 at the concrete non-object input `[]`. -/
theorem C9_non_object_defaults_witness :
    (Json.arr []).asObj = none ∧
      parseRecipeVal (Json.arr []) =
        { recipe_type := "unknown", result_item := none,
          result_count := none, ingredients := [] } :=
  ⟨rfl, C9_non_object_defaults (Json.arr []) rfl⟩

/-- C10: when the `result` value is an object whose `count` field is
absent or not an integer, the normalizer reports `result_count = 1`, even
if the object has no `item`/`id` field — so `result_count` can be present
while `result_item` is absent. -/
theorem C10_count_defaults_to_one (j : Json) (fields : List (String × Json))
    (hres : j.get "result" = some (Json.obj fields))
    (hcount : ((Json.obj fields).get "count").bind Json.asInt = none) :
    (parseRecipeVal j).result_count = some 1 ∧
      ((Json.obj fields).get "item" = none → (Json.obj fields).get "id" = none →
        (parseRecipeVal j).result_item = none) := by
  constructor
  · simp only [parseRecipeVal, hres, extract_item_and_count, hcount]
  · intro hitem hid
    simp only [parseRecipeVal, hres, extract_item_and_count, hitem, hid, Option.or]
    split <;> simp [hres, Json.asStr]

/-- Witness for C10 at a result object carrying only a non-integer
`count`. -/
theorem C10_count_defaults_to_one_witness :
    (parseRecipeVal (Json.obj [("result", Json.obj [("count", Json.numNonInt)])])).result_count
        = some 1 ∧
      (parseRecipeVal (Json.obj [("result", Json.obj [("count", Json.numNonInt)])])).result_item
        = none := by
  have h := C10_count_defaults_to_one
    (Json.obj [("result", Json.obj [("count", Json.numNonInt)])])
    [("count", Json.numNonInt)] rfl rfl
  exact ⟨h.1, h.2 rfl rfl⟩

end ModpackWorkbench
